import Mathlib

/-!
Shallow embedding of `src/route_check.py` (route-checker).

Conventions used throughout:
* Python dicts are modelled as association lists kept in the dict's
  insertion/iteration order; `dict` lookup is `List.lookup`.
* Python strings are Lean `String`s; Python compares strings by code
  points, which we model with the executable order `strLe` below
  (core `String`'s order does not reduce in the kernel).
* Timestamps are integer seconds; `datetime.timedelta(hours=8)` is the
  constant 28800.
* The external collaborators (netmiko transport, ntc parser, filesystem,
  clock) are modelled as explicit environment records supplying their
  outcomes; the code under test is everything the Python file itself does
  with those outcomes.
-/

/-- Boolean lexicographic order on char lists by code point, the order
Python uses to compare strings (a strict prefix sorts first). -/
def lexLeb : List Char → List Char → Bool
  | [], _ => true
  | _ :: _, [] => false
  | a :: as, b :: bs =>
    if a.toNat < b.toNat then true
    else if b.toNat < a.toNat then false
    else lexLeb as bs

/-- Python's string order `s <= t`, as a proposition over `lexLeb`. -/
def strLe (s t : String) : Prop := lexLeb s.data t.data = true

instance strLe.decidable (s t : String) : Decidable (strLe s t) :=
  inferInstanceAs (Decidable (_ = true))

/-- Concatenation of a list of strings, modelling repeated `output += piece`. -/
def strJoin : List String → String
  | [] => ""
  | s :: rest => s ++ strJoin rest

/-- Python's `sep.join(pieces)`: pieces interleaved with the separator. -/
def joinSep (sep : String) : List String → String
  | [] => ""
  | [s] => s
  | s :: rest => s ++ sep ++ joinSep sep rest

/-- Python's `str(...)` applied to a list of ints, e.g. `[100, 200]`. -/
def pyStrIntList (l : List Int) : String :=
  "[" ++ joinSep ", " (l.map toString) ++ "]"

/-- Python's f-string rendering of an `Optional[str]`: `None` when absent. -/
def pyOptStr : Option String → String
  | none => "None"
  | some s => s

/-- The `PEER_TRANSLATE` table of the source (AS number to human label). -/
def PEER_TRANSLATE : List (Int × String) := [(3257, "GTT"), (6939, "HURRICANE")]

/-- The `PREFIX_TRANSLATE` table of the source (routing prefix to label). -/
def PREFIX_TRANSLATE : List (String × String) := [("1.2.3.0/24", "MY_SITE")]

/-- A stored snapshot, one JSON line of the append-only log file
`/tmp/route_view.log`: a `timestamp` (from `datetime.now()`, modelled in
integer seconds) and `contents` mapping each prefix to its AS-number list. -/
structure View where
  timestamp : Int
  contents : List (String × List Int)
deriving DecidableEq

/-- One record of the external parser's output: `parse_output(...)` yields
dicts with a `network` and an `as_path` field. -/
structure ParsedRecord where
  network : String
  as_path : String
deriving DecidableEq

/-- Word characters of the regex `\w` (ASCII range, the range exercised by
AS-path text). -/
def isWordChar (c : Char) : Bool := c.isAlpha || c.isDigit || c == '_'

/-- Attempt to match the regex `(\w+) <asn>` at the start of `l`: a maximal
nonempty run of word characters, then a space, then the literal `asn`.
Because a space is not a word character, greedy `\w+` can only succeed with
the maximal run, so no backtracking case is needed. Returns the captured
group. -/
def matchAt (asn : List Char) (l : List Char) : Option (List Char) :=
  let run := l.takeWhile isWordChar
  if run.isEmpty then none
  else
    match l.dropWhile isWordChar with
    | ' ' :: tail => if asn.isPrefixOf tail then some run else none
    | _ => none

/-- `re.search` of the pattern `(\w+) <asn>`: the leftmost position at which
`matchAt` succeeds (scanning one character at a time finds the leftmost
match, and at the leftmost match the run is maximal). Models line 116-117 of
the source, assuming a numeric `asn` (no regex metacharacters). -/
def reSearch (asn : List Char) : List Char → Option (List Char)
  | [] => none
  | c :: rest =>
    match matchAt asn (c :: rest) with
    | some run => some run
    | none => reSearch asn rest

/-- Python's `int(...)` on a `\w+` token: defined exactly on nonempty
all-digit tokens (a token with other word characters raises `ValueError`;
we do not model the underscore-separator acceptance of `int`, which cannot
arise from numeric AS-path fields). -/
def pyInt : List Char → Option Int
  | [] => none
  | l =>
    if l.all Char.isDigit then
      some (Int.ofNat (l.foldl (fun n c => n * 10 + (c.toNat - 48)) 0))
    else none

/-- Outcome of the per-record extraction `pattern.search(item["as_path"])`
followed by `int(str(match.groups()[0]))`. -/
inductive Extracted where
  | err
  | noAdj
  | adj (n : Int)
deriving DecidableEq

/-- Extraction of lines 116-119: search `(\w+) <asn>` in the AS-path; no
match contributes nothing, a match whose captured token is not numeric makes
`int` raise (`err`). -/
def extractAS (asn : String) (as_path : String) : Extracted :=
  match reSearch asn.data as_path.data with
  | none => .noAdj
  | some run =>
    match pyInt run with
    | some n => .adj n
    | none => .err

/-- Structural helper for `pyDedup`: keep each element's first occurrence,
skipping elements already `seen`. -/
def pyDedupAux [DecidableEq α] (seen : List α) : List α → List α
  | [] => []
  | x :: xs => if x ∈ seen then pyDedupAux seen xs else x :: pyDedupAux (x :: seen) xs

/-- Python's `list(dict.fromkeys(l))` (also the key-dedup effect of a dict
comprehension): the first occurrences of `l`'s elements, in order. -/
def pyDedup [DecidableEq α] (l : List α) : List α := pyDedupAux [] l

/-- The dict comprehension of line 113: one key per distinct network of the
sorted prefix list, each mapped to an empty list. -/
def blankData (keys : List String) : List (String × List Int) :=
  keys.map (fun k => (k, ([] : List Int)))

/-- `data[network].append(n)` on the association-list model: append `n` to
the entry whose key is `k`. -/
def appendAt (data : List (String × List Int)) (k : String) (n : Int) :
    List (String × List Int) :=
  data.map (fun p => if p.1 = k then (p.1, p.2 ++ [n]) else p)

/-- The population loop of lines 115-119: for each parsed record, extract
the AS adjacent to the target ASN and append it to that record's network;
`none` models the `ValueError` escape when `int` fails. -/
def buildData (asn : String) : List ParsedRecord → List (String × List Int) →
    Option (List (String × List Int))
  | [], data => some data
  | r :: rs, data =>
    match extractAS asn r.as_path with
    | .err => none
    | .noAdj => buildData asn rs data
    | .adj n => buildData asn rs (appendAt data r.network n)

/-- The normalization of lines 110-124: sort the networks, key the data by
their distinct values, populate per-record adjacencies, then sort and
deduplicate every value list (`path.sort()` then `list(dict.fromkeys(path))`). -/
def normalizeView (asn : String) (parsed : List ParsedRecord) :
    Option (List (String × List Int)) :=
  let keys := pyDedup (List.insertionSort strLe (parsed.map (·.network)))
  (buildData asn parsed (blankData keys)).map
    (fun data => data.map (fun p => (p.1, pyDedup (List.insertionSort (· ≤ ·) p.2))))

/-- The marker strip of lines 100-106, `re.sub("\n[NV]", "\n", raw)`:
non-overlapping left-to-right replacement of a newline followed by `N` or
`V` by the bare newline. -/
def stripMarkers : List Char → List Char
  | '\n' :: 'N' :: rest => '\n' :: stripMarkers rest
  | '\n' :: 'V' :: rest => '\n' :: stripMarkers rest
  | c :: rest => c :: stripMarkers rest
  | [] => []

/-- Outcome of one `netmiko.ConnectHandler` call: success, the retryable
`NetmikoAuthenticationException`, or any other (non-retried) exception. -/
inductive ConnResult where
  | ok
  | authFail
  | otherFail
deriving DecidableEq

/-- Result of the retry loop of lines 84-97, with the number of connection
attempts made and the list of `sleep` durations performed (seconds). -/
inductive OpenOutcome where
  | opened (attempts : Nat) (sleeps : List Nat)
  | exhausted (attempts : Nat) (sleeps : List Nat)
  | propagated (attempts : Nat) (sleeps : List Nat)
deriving DecidableEq

/-- The `while not success and retry >= 1` loop of lines 84-97: `conn i` is
the outcome of the `i`-th `ConnectHandler` call. An auth failure sleeps 3
seconds and decrements `retry`; any other exception escapes the loop
(`propagated`); `retry` hitting 0 leaves the loop unsuccessful
(`exhausted`, followed by the `RuntimeError` of line 99). -/
def openLoop (conn : Nat → ConnResult) : Nat → Nat → List Nat → OpenOutcome
  | 0, i, sleeps => .exhausted i sleeps
  | retry + 1, i, sleeps =>
    match conn i with
    | .ok => .opened (i + 1) sleeps
    | .authFail => openLoop conn retry (i + 1) (sleeps ++ [3])
    | .otherFail => .propagated (i + 1) sleeps

/-- Environment of one `_view_from_route_server` call: the transport's
per-attempt outcomes, the result of `send_command` (raw text or a raised
exception), the external parser (applied to the marker-stripped text), the
clock, and the target ASN. -/
structure FetchEnv where
  conn : Nat → ConnResult
  raw : Except String String
  parse : String → Except String (List ParsedRecord)
  now : Int
  asn : String

/-- Lines 80-129, `_view_from_route_server`, acting on the log-file state
`store` (the list of already-appended snapshots). Returns the raised error
or the written view, together with the resulting log contents: the single
append of line 128-129 runs only after every fallible step has succeeded. -/
def view_from_route_server (env : FetchEnv) (store : List View) :
    Except String View × List View :=
  match openLoop env.conn 5 0 [] with
  | .propagated _ _ => (.error "transport failure", store)
  | .exhausted _ _ => (.error "Error logging into route-views after 5 attempts", store)
  | .opened _ _ =>
    match env.raw with
    | .error e => (.error e, store)
    | .ok raw =>
      match env.parse (String.mk (stripMarkers raw.data)) with
      | .error e => (.error e, store)
      | .ok parsed =>
        match normalizeView env.asn parsed with
        | none => (.error "ValueError", store)
        | some contents =>
          (.ok ⟨env.now, contents⟩, store ++ [⟨env.now, contents⟩])

/-- The staleness decision of lines 166-172: fetch when the latest view is
absent (falsy), when `refresh` is forced, or when
`view_time < now - timedelta(hours=8)` (strictly older than 8 hours). -/
def needsRefresh (latest : Option View) (refresh : Bool) (now : Int) : Bool :=
  match latest with
  | none => true
  | some v => refresh || decide (v.timestamp < now - 28800)

/-- State of one invocation for the operation-counting model: the log file
(`none` = file absent, `some lines` = its parsed lines) and how many
route-server fetches, log reads and log appends have happened so far. -/
structure RunState where
  file : Option (List View)
  fetches : Nat
  reads : Nat
  appends : Nat
deriving DecidableEq

/-- Result of a step of the counting model: a value with the new state, or
a raised exception aborting the invocation (state kept for counting). -/
inductive Res (α : Type) where
  | ok (a : α) (s : RunState)
  | fail (s : RunState)

/-- The state carried by a `Res`, whether the step succeeded or raised. -/
def Res.state : Res α → RunState
  | .ok _ s => s
  | .fail s => s

/-- Environment of the counting model: `fetchRes i` is the outcome of the
`i`-th `_view_from_route_server` call of the invocation (`none` = it raised,
`some v` = it appended `v`), plus the `refresh` flag and the clock. -/
structure RunEnv where
  fetchRes : Nat → Option View
  refresh : Bool
  now : Int

/-- One `_view_from_route_server` call in the counting model: counts a
fetch; on success appends the fetched view to the log (creating the file if
absent, as append-mode `open` does). -/
def doFetch (env : RunEnv) (s : RunState) : Res Unit :=
  match env.fetchRes s.fetches with
  | none => .fail { s with fetches := s.fetches + 1 }
  | some v =>
      .ok () { s with
        fetches := s.fetches + 1
        appends := s.appends + 1
        file := some ((s.file.getD []) ++ [v]) }

/-- The `_read_file` helper of lines 139-150: one read of the log, yielding
its last line (or `None` for an empty file); a missing file raises. -/
def read_file (s : RunState) : Res (Option View) :=
  match s.file with
  | none => .fail { s with reads := s.reads + 1 }
  | some lines => .ok lines.getLast? { s with reads := s.reads + 1 }

/-- Lines 134-159, `_view_from_file`: fetch first if the file does not
exist; read; if the read produced nothing, fetch and read again. -/
def view_from_file (env : RunEnv) (s : RunState) : Res (Option View) :=
  match (if s.file.isNone then doFetch env s else .ok () s) with
  | .fail s1 => .fail s1
  | .ok _ s1 =>
    match read_file s1 with
    | .fail s2 => .fail s2
    | .ok latest s2 =>
      match latest with
      | some v => .ok (some v) s2
      | none =>
        match doFetch env s2 with
        | .fail s3 => .fail s3
        | .ok _ s3 => read_file s3

/-- Lines 161-173, `_get_view`: read the latest view, fetch if `needsRefresh`
says so, and return a final `_view_from_file`. -/
def get_view (env : RunEnv) (s : RunState) : Res (Option View) :=
  match view_from_file env s with
  | .fail s1 => .fail s1
  | .ok latest s1 =>
    match (if needsRefresh latest env.refresh env.now then doFetch env s1 else .ok () s1) with
    | .fail s2 => .fail s2
    | .ok _ s2 => view_from_file env s2

/-- Lines 175-187, `_get_path`: `", ".join(...)` over the AS numbers, each
labelled from `PEER_TRANSLATE` or marked `(UNKNOWN AS)`. -/
def get_path (path : List Int) : String :=
  joinSep ", " (path.map (fun n =>
    match PEER_TRANSLATE.lookup n with
    | some name => toString n ++ " (" ++ name ++ ")"
    | none => toString n ++ " (UNKNOWN AS)"))

/-- Lines 204-215, `verbose_view`: one line per prefix;
`PREFIX_TRANSLATE.get(prefix)` is rendered by the f-string, so an absent
alias prints as the text `None`. -/
def verbose_view (contents : List (String × List Int)) : String :=
  strJoin (contents.map (fun e =>
    "Prefix " ++ e.1 ++ " (" ++ pyOptStr (PREFIX_TRANSLATE.lookup e.1) ++
      ") is accessible via next hop AS " ++ get_path e.2 ++ "\n"))

/-- Loop body of lines 223-233 of `alert_view`, folded over the view's
contents: accumulator is the `errors` flag and the `output` string. -/
def alertStep (intent : List (String × List Int)) (acc : Bool × String)
    (e : String × List Int) : Bool × String :=
  match intent.lookup e.1 with
  | none => (true, acc.2 ++ ("Prefix " ++ e.1 ++ " not found in intent file! "))
  | some declared =>
    if declared ≠ e.2 then
      (true, acc.2 ++ ("Prefix " ++ e.1 ++ " intent " ++ pyStrIntList declared ++
        " does not match reality " ++ pyStrIntList e.2 ++ "  "))
    else acc

/-- Lines 217-236, `alert_view`: fold the loop body over the contents, add
`No alerts!` when no error was found, and wrap with the verdict marker. -/
def alert_view (contents intent : List (String × List Int)) : String :=
  let res := contents.foldl (alertStep intent) (false, "")
  let output := if res.1 then res.2 else res.2 ++ "No alerts!"
  if res.1 then "[CRITICAL] " ++ output else "[OK] " ++ output

/-- Whether the loop body flags entry `e` as an error (key missing from the
intent, or an intent list differing from the observed list in value or
order). -/
def alertFlag (intent : List (String × List Int)) (e : String × List Int) : Bool :=
  match intent.lookup e.1 with
  | none => true
  | some declared => decide (declared ≠ e.2)

/-- The text the loop body appends for entry `e` (empty for a matching
entry). -/
def alertMsg (intent : List (String × List Int)) (e : String × List Int) : String :=
  match intent.lookup e.1 with
  | none => "Prefix " ++ e.1 ++ " not found in intent file! "
  | some declared =>
    if declared ≠ e.2 then
      "Prefix " ++ e.1 ++ " intent " ++ pyStrIntList declared ++
        " does not match reality " ++ pyStrIntList e.2 ++ "  "
    else ""

/-- String `s` begins with `t`. -/
def StrStarts (s t : String) : Prop := ∃ r, s = t ++ r

/-- String `s` contains `t` as a contiguous substring. -/
def StrContains (s t : String) : Prop := ∃ a b, s = a ++ (t ++ b)

/-! ### General lemmas about the helper functions -/

theorem lexLeb_total : ∀ a b : List Char, lexLeb a b = true ∨ lexLeb b a = true := by
  intro a
  induction a with
  | nil => intro b; left; rfl
  | cons x xs ih =>
    intro b
    cases b with
    | nil => right; rfl
    | cons y ys =>
      simp only [lexLeb]
      rcases Nat.lt_trichotomy x.toNat y.toNat with h | h | h
      · left; simp [h]
      · have h1 : ¬ x.toNat < y.toNat := by omega
        have h2 : ¬ y.toNat < x.toNat := by omega
        simp only [h1, h2, if_false]
        exact ih ys
      · right; simp [h]

theorem lexLeb_trans : ∀ a b c : List Char,
    lexLeb a b = true → lexLeb b c = true → lexLeb a c = true := by
  intro a
  induction a with
  | nil => intro b c _ _; rfl
  | cons x xs ih =>
    intro b c hab hbc
    cases b with
    | nil => simp [lexLeb] at hab
    | cons y ys =>
      cases c with
      | nil => simp [lexLeb] at hbc
      | cons z zs =>
        simp only [lexLeb] at hab hbc ⊢
        by_cases hxy : x.toNat < y.toNat
        · by_cases hyz : y.toNat < z.toNat
          · simp [Nat.lt_trans hxy hyz]
          · by_cases hzy : z.toNat < y.toNat
            · simp [hyz, hzy] at hbc
            · have : x.toNat < z.toNat := by omega
              simp [this]
        · by_cases hyx : y.toNat < x.toNat
          · simp [hxy, hyx] at hab
          · have hxyeq : x.toNat = y.toNat := by omega
            by_cases hyz : y.toNat < z.toNat
            · have : x.toNat < z.toNat := by omega
              simp [this]
            · by_cases hzy : z.toNat < y.toNat
              · simp [hyz, hzy] at hbc
              · have h1 : ¬ x.toNat < z.toNat := by omega
                have h2 : ¬ z.toNat < x.toNat := by omega
                simp only [h1, h2, if_false] at hab hbc ⊢
                simp only [hxy, hyx, if_false] at hab
                simp only [hyz, hzy, if_false] at hbc
                exact ih ys zs hab hbc

instance : IsTotal String strLe :=
  ⟨fun s t => lexLeb_total s.data t.data⟩

instance : IsTrans String strLe :=
  ⟨fun _ _ _ hab hbc => lexLeb_trans _ _ _ hab hbc⟩

theorem pyDedupAux_sublist [DecidableEq α] :
    ∀ (l seen : List α), List.Sublist (pyDedupAux seen l) l := by
  intro l
  induction l with
  | nil => intro seen; simp [pyDedupAux]
  | cons x xs ih =>
    intro seen
    simp only [pyDedupAux]
    split
    · exact (ih seen).trans (List.sublist_cons_self x xs)
    · exact List.Sublist.cons₂ x (ih (x :: seen))

theorem mem_pyDedupAux [DecidableEq α] (a : α) :
    ∀ (l seen : List α), a ∈ pyDedupAux seen l ↔ a ∈ l ∧ a ∉ seen := by
  intro l
  induction l with
  | nil => intro seen; simp [pyDedupAux]
  | cons x xs ih =>
    intro seen
    simp only [pyDedupAux]
    split
    · rename_i hx
      rw [ih seen]
      simp only [List.mem_cons]
      constructor
      · rintro ⟨h1, h2⟩; exact ⟨Or.inr h1, h2⟩
      · rintro ⟨h1 | h1, h2⟩
        · subst h1; exact absurd hx h2
        · exact ⟨h1, h2⟩
    · rename_i hx
      simp only [List.mem_cons, ih (x :: seen)]
      constructor
      · rintro (rfl | ⟨h1, h2⟩)
        · exact ⟨Or.inl rfl, hx⟩
        · exact ⟨Or.inr h1, fun hs => h2 (Or.inr hs)⟩
      · rintro ⟨rfl | h1, h2⟩
        · exact Or.inl rfl
        · by_cases hax : a = x
          · exact Or.inl hax
          · exact Or.inr ⟨h1, fun hs => hs.elim hax h2⟩

theorem pyDedupAux_nodup [DecidableEq α] :
    ∀ (l seen : List α), (pyDedupAux seen l).Nodup := by
  intro l
  induction l with
  | nil => intro seen; simp [pyDedupAux]
  | cons x xs ih =>
    intro seen
    simp only [pyDedupAux]
    split
    · exact ih seen
    · refine List.nodup_cons.mpr ⟨?_, ih (x :: seen)⟩
      intro hmem
      exact ((mem_pyDedupAux x xs (x :: seen)).mp hmem).2 (List.mem_cons_self x seen)

theorem pyDedup_sublist [DecidableEq α] (l : List α) : List.Sublist (pyDedup l) l :=
  pyDedupAux_sublist l []

theorem mem_pyDedup [DecidableEq α] (a : α) (l : List α) : a ∈ pyDedup l ↔ a ∈ l := by
  rw [pyDedup, mem_pyDedupAux]; simp

theorem pyDedup_nodup [DecidableEq α] (l : List α) : (pyDedup l).Nodup :=
  pyDedupAux_nodup l []

theorem sorted_pyDedup [DecidableEq α] {r : α → α → Prop} {l : List α}
    (h : List.Sorted r l) : List.Sorted r (pyDedup l) :=
  List.Pairwise.sublist (pyDedup_sublist l) h

theorem strJoin_append : ∀ l₁ l₂ : List String,
    strJoin (l₁ ++ l₂) = strJoin l₁ ++ strJoin l₂ := by
  intro l₁ l₂
  induction l₁ with
  | nil => simp [strJoin, String.empty_append]
  | cons s rest ih => simp [strJoin, ih, String.append_assoc]

theorem strJoin_all_empty {f : α → String} :
    ∀ l : List α, (∀ x ∈ l, f x = "") → strJoin (l.map f) = "" := by
  intro l
  induction l with
  | nil => intro _; rfl
  | cons x xs ih =>
    intro h
    simp only [List.map_cons, strJoin, h x (List.mem_cons_self x xs)]
    rw [String.empty_append]
    exact ih (fun y hy => h y (List.mem_cons_of_mem x hy))

theorem strContains_trans {s t u : String} (h1 : StrContains s t) (h2 : StrContains t u) :
    StrContains s u := by
  obtain ⟨a, b, rfl⟩ := h1
  obtain ⟨c, d, rfl⟩ := h2
  exact ⟨a ++ c, d ++ b, by simp [String.append_assoc]⟩

theorem strContains_of_join {f : α → String} {x : α} {l : List α} (h : x ∈ l) :
    StrContains (strJoin (l.map f)) (f x) := by
  obtain ⟨s, t, rfl⟩ := List.append_of_mem h
  refine ⟨strJoin (s.map f), strJoin (t.map f), ?_⟩
  rw [List.map_append, strJoin_append, List.map_cons]
  rfl

theorem strContains_of_joinSep {sep : String} {f : α → String} {x : α} :
    ∀ l : List α, x ∈ l → StrContains (joinSep sep (l.map f)) (f x) := by
  intro l
  induction l with
  | nil => intro h; simp at h
  | cons y ys ih =>
    intro h
    rcases List.mem_cons.mp h with rfl | hmem
    · cases ys with
      | nil => exact ⟨"", "", by simp [joinSep, String.append_empty, String.empty_append]⟩
      | cons z zs =>
        refine ⟨"", sep ++ joinSep sep ((z :: zs).map f), ?_⟩
        simp [joinSep, String.append_assoc, String.empty_append]
    · have hys : ys ≠ [] := by rintro rfl; simp at hmem
      obtain ⟨a, b, hab⟩ := ih hmem
      cases ys with
      | nil => simp at hmem
      | cons z zs =>
        refine ⟨f y ++ sep ++ a, b, ?_⟩
        simp only [List.map_cons] at hab
        simp only [List.map_cons, joinSep, hab]
        simp [String.append_assoc]

/-! ### Lemmas about `alert_view` -/

theorem alertStep_eq (intent : List (String × List Int)) (acc : Bool × String)
    (e : String × List Int) :
    alertStep intent acc e = (acc.1 || alertFlag intent e, acc.2 ++ alertMsg intent e) := by
  simp only [alertStep, alertFlag, alertMsg]
  cases h : intent.lookup e.1 with
  | none => simp
  | some declared =>
    by_cases hd : declared ≠ e.2
    · simp [hd]
    · simp [hd, String.append_empty]

theorem alert_foldl (intent : List (String × List Int)) :
    ∀ (l : List (String × List Int)) (acc : Bool × String),
      l.foldl (alertStep intent) acc =
        (acc.1 || l.any (alertFlag intent), acc.2 ++ strJoin (l.map (alertMsg intent))) := by
  intro l
  induction l with
  | nil => intro acc; simp [strJoin, String.append_empty]
  | cons e rest ih =>
    intro acc
    simp only [List.foldl_cons, List.any_cons, List.map_cons, strJoin]
    rw [alertStep_eq, ih]
    simp [Bool.or_assoc, String.append_assoc]

theorem alert_view_eq (contents intent : List (String × List Int)) :
    alert_view contents intent =
      if contents.any (alertFlag intent) then
        "[CRITICAL] " ++ strJoin (contents.map (alertMsg intent))
      else
        "[OK] " ++ (strJoin (contents.map (alertMsg intent)) ++ "No alerts!") := by
  simp only [alert_view, alert_foldl intent contents (false, "")]
  cases h : contents.any (alertFlag intent) <;>
    simp [h, String.empty_append, String.append_assoc]

theorem alertFlag_false_of_match {intent : List (String × List Int)}
    {e : String × List Int} (h : intent.lookup e.1 = some e.2) :
    alertFlag intent e = false := by
  simp [alertFlag, h]

theorem alertMsg_empty_of_match {intent : List (String × List Int)}
    {e : String × List Int} (h : intent.lookup e.1 = some e.2) :
    alertMsg intent e = "" := by
  simp [alertMsg, h]

theorem alert_view_ok_of_matches {contents intent : List (String × List Int)}
    (h : ∀ e ∈ contents, intent.lookup e.1 = some e.2) :
    alert_view contents intent = "[OK] No alerts!" := by
  rw [alert_view_eq]
  have hany : contents.any (alertFlag intent) = false := by
    rw [List.any_eq_false]
    intro e he
    simp [alertFlag_false_of_match (h e he)]
  have hjoin : strJoin (contents.map (alertMsg intent)) = "" :=
    strJoin_all_empty contents (fun e he => alertMsg_empty_of_match (h e he))
  rw [hany, if_neg (by simp), hjoin, String.empty_append]
  rfl

theorem alert_view_critical_of_flag {contents intent : List (String × List Int)}
    {e : String × List Int} (he : e ∈ contents) (hflag : alertFlag intent e = true) :
    StrStarts (alert_view contents intent) "[CRITICAL] " ∧
      StrContains (alert_view contents intent) (alertMsg intent e) := by
  have hany : contents.any (alertFlag intent) = true :=
    List.any_eq_true.mpr ⟨e, he, hflag⟩
  rw [alert_view_eq, if_pos hany]
  constructor
  · exact ⟨strJoin (contents.map (alertMsg intent)), rfl⟩
  · obtain ⟨a, b, hab⟩ := @strContains_of_join _ (alertMsg intent) e contents he
    exact ⟨"[CRITICAL] " ++ a, b, by rw [hab, String.append_assoc]⟩

/-- C2: intent comparison is order-sensitive list equality: for the prefix
`1.2.3.0/24` present in both view and intent, intent `[100, 200]` against
observed `[200, 100]` emits a finding and a `[CRITICAL]` verdict, while the
same intent against observed `[100, 200]` yields the ok rendering with no
finding for that prefix. -/
theorem alert_view_order_sensitive :
    alert_view [("1.2.3.0/24", [200, 100])] [("1.2.3.0/24", [100, 200])] =
      "[CRITICAL] Prefix 1.2.3.0/24 intent [100, 200] does not match reality [200, 100]  " ∧
    alert_view [("1.2.3.0/24", [100, 200])] [("1.2.3.0/24", [100, 200])] =
      "[OK] No alerts!" :=
  ⟨rfl, rfl⟩

/-- C6: when every prefix of the view matches its intent entry exactly, the
rendering is exactly `[OK] No alerts!`; when some prefix's observed list
differs from its intent entry, the rendering begins with `[CRITICAL] ` and
contains both the declared and the observed AS-number lists. -/
theorem alert_view_verdicts (contents intent : List (String × List Int)) :
    ((∀ e ∈ contents, intent.lookup e.1 = some e.2) →
      alert_view contents intent = "[OK] No alerts!") ∧
    (∀ p l declared, (p, l) ∈ contents → intent.lookup p = some declared →
      declared ≠ l →
      StrStarts (alert_view contents intent) "[CRITICAL] " ∧
      StrContains (alert_view contents intent) (pyStrIntList declared) ∧
      StrContains (alert_view contents intent) (pyStrIntList l)) := by
  constructor
  · exact alert_view_ok_of_matches
  · intro p l declared hmem hlook hne
    have hflag : alertFlag intent (p, l) = true := by simp [alertFlag, hlook, hne]
    obtain ⟨hstart, hcont⟩ := alert_view_critical_of_flag hmem hflag
    have hmsg : alertMsg intent (p, l) =
        "Prefix " ++ p ++ " intent " ++ pyStrIntList declared ++
          " does not match reality " ++ pyStrIntList l ++ "  " := by
      simp [alertMsg, hlook, hne]
    refine ⟨hstart, ?_, ?_⟩
    · refine strContains_trans hcont ⟨"Prefix " ++ p ++ " intent ",
        " does not match reality " ++ pyStrIntList l ++ "  ", ?_⟩
      rw [hmsg]; simp [String.append_assoc]
    · refine strContains_trans hcont ⟨"Prefix " ++ p ++ " intent " ++
        pyStrIntList declared ++ " does not match reality ", "  ", ?_⟩
      rw [hmsg]; simp [String.append_assoc]

/-- Witness for C6 at the spec's own example: intent `[3257]` for
`1.2.3.0/24`, one matching view and one view observing `[6939]`. -/
theorem alert_view_verdicts_witness :
    alert_view [("1.2.3.0/24", [3257])] [("1.2.3.0/24", [3257])] = "[OK] No alerts!" ∧
    (StrStarts (alert_view [("1.2.3.0/24", [6939])] [("1.2.3.0/24", [3257])])
        "[CRITICAL] " ∧
      StrContains (alert_view [("1.2.3.0/24", [6939])] [("1.2.3.0/24", [3257])])
        (pyStrIntList [3257]) ∧
      StrContains (alert_view [("1.2.3.0/24", [6939])] [("1.2.3.0/24", [3257])])
        (pyStrIntList [6939])) :=
  ⟨(alert_view_verdicts [("1.2.3.0/24", [3257])] [("1.2.3.0/24", [3257])]).1
      (by decide),
    (alert_view_verdicts [("1.2.3.0/24", [6939])] [("1.2.3.0/24", [3257])]).2
      "1.2.3.0/24" [6939] [3257] (by decide) (by decide) (by decide)⟩

/-- C7: a prefix present in the view but absent from the intent mapping
produces the `not found in intent file!` finding and a `[CRITICAL]` verdict,
whatever its AS-number list (including the empty list). -/
theorem alert_view_undeclared (contents intent : List (String × List Int))
    (p : String) (l : List Int) (hmem : (p, l) ∈ contents)
    (hlook : intent.lookup p = none) :
    StrStarts (alert_view contents intent) "[CRITICAL] " ∧
    StrContains (alert_view contents intent)
      ("Prefix " ++ p ++ " not found in intent file! ") := by
  have hflag : alertFlag intent (p, l) = true := by simp [alertFlag, hlook]
  obtain ⟨hstart, hcont⟩ := alert_view_critical_of_flag hmem hflag
  have hmsg : alertMsg intent (p, l) =
      "Prefix " ++ p ++ " not found in intent file! " := by
    simp [alertMsg, hlook]
  rw [hmsg] at hcont
  exact ⟨hstart, hcont⟩

/-- Witness for C7: a view prefix with an empty AS list and an empty
intent. -/
theorem alert_view_undeclared_witness :
    StrStarts (alert_view [("9.9.9.0/24", [])] []) "[CRITICAL] " ∧
    StrContains (alert_view [("9.9.9.0/24", [])] [])
      ("Prefix " ++ "9.9.9.0/24" ++ " not found in intent file! ") :=
  alert_view_undeclared [("9.9.9.0/24", [])] [] "9.9.9.0/24" [] (by decide) rfl

/-- C10: the comparison only examines prefixes of the view's contents: a
prefix declared in the intent but absent from the view contributes no
finding, so when the view's remaining prefixes all match, the verdict is
still exactly `[OK] No alerts!`. -/
theorem alert_view_ignores_absent_view_entries
    (contents intent : List (String × List Int)) (p : String) (declared : List Int)
    (_hdecl : intent.lookup p = some declared)
    (_habsent : ∀ l, (p, l) ∉ contents)
    (hmatch : ∀ e ∈ contents, intent.lookup e.1 = some e.2) :
    alert_view contents intent = "[OK] No alerts!" :=
  alert_view_ok_of_matches hmatch

/-- Witness for C10: intent declares `a` and `b`, the view has lost `a`
and still matches on `b`. -/
theorem alert_view_ignores_absent_view_entries_witness :
    alert_view [("b", [2])] [("a", [1]), ("b", [2])] = "[OK] No alerts!" :=
  alert_view_ignores_absent_view_entries [("b", [2])] [("a", [1]), ("b", [2])]
    "a" [1] (by decide)
    (fun l hl => by
      simp only [List.mem_singleton, Prod.mk.injEq] at hl
      exact absurd hl.1 (by decide))
    (by decide)

/-- C3: the staleness decision fetches exactly when the latest snapshot is
absent, the force flag is set, or the snapshot is strictly older than 8
hours; a snapshot aged exactly 8 hours is fresh. -/
theorem needsRefresh_spec (latest : Option View) (refresh : Bool) (now : Int) :
    (needsRefresh latest refresh now = true ↔
      latest = none ∨ refresh = true ∨
        ∃ v, latest = some v ∧ now - v.timestamp > 28800) ∧
    (∀ v, latest = some v → v.timestamp = now - 28800 →
      needsRefresh latest false now = false) := by
  constructor
  · cases latest with
    | none => simp [needsRefresh]
    | some v =>
      simp only [needsRefresh, Bool.or_eq_true, decide_eq_true_eq]
      constructor
      · rintro (h | h)
        · exact Or.inr (Or.inl h)
        · exact Or.inr (Or.inr ⟨v, rfl, by omega⟩)
      · rintro (h | h | ⟨w, hw, hgt⟩)
        · simp at h
        · exact Or.inl h
        · cases hw
          exact Or.inr (by omega)
  · rintro v rfl hts
    simp only [needsRefresh, Bool.false_or, decide_eq_false_iff_not]
    omega

/-- Witness for C3: a snapshot aged exactly 8 hours is fresh, and an absent
snapshot forces a fetch. -/
theorem needsRefresh_spec_witness :
    needsRefresh (some ⟨0, []⟩) false 28800 = false ∧
    needsRefresh none false 0 = true :=
  ⟨(needsRefresh_spec (some ⟨0, []⟩) false 28800).2 ⟨0, []⟩ rfl (by decide),
    (needsRefresh_spec none false 0).1.mpr (Or.inl rfl)⟩

theorem openLoop_auth (conn : Nat → ConnResult) (h : ∀ i, conn i = .authFail) :
    ∀ (k i : Nat) (sleeps : List Nat),
      openLoop conn k i sleeps = .exhausted (i + k) (sleeps ++ List.replicate k 3) := by
  intro k
  induction k with
  | zero => intro i sleeps; simp [openLoop]
  | succ n ih =>
    intro i sleeps
    simp only [openLoop, h i]
    rw [ih (i + 1) (sleeps ++ [3])]
    congr 1
    · omega
    · simp [List.replicate_succ]

/-- C4: under sustained authentication failure the session loop makes
exactly 5 connection attempts, each followed by a 3-second sleep, and the
fetch fails with the exhausted-retries error instead of returning (and
appending) a snapshot. -/
theorem view_from_route_server_exhausts_retries (env : FetchEnv) (store : List View)
    (h : ∀ i, env.conn i = .authFail) :
    openLoop env.conn 5 0 [] = .exhausted 5 [3, 3, 3, 3, 3] ∧
    view_from_route_server env store =
      (.error "Error logging into route-views after 5 attempts", store) := by
  have h5 : openLoop env.conn 5 0 [] = .exhausted 5 [3, 3, 3, 3, 3] := by
    rw [openLoop_auth env.conn h 5 0 []]
    decide
  refine ⟨h5, ?_⟩
  simp [view_from_route_server, h5]

/-- Witness for C4: a transport whose every attempt raises the
authentication exception. -/
theorem view_from_route_server_exhausts_retries_witness :
    openLoop (fun _ => ConnResult.authFail) 5 0 [] = .exhausted 5 [3, 3, 3, 3, 3] ∧
    view_from_route_server
        ⟨fun _ => ConnResult.authFail, .ok "", fun _ => .ok [], 0, "3257"⟩ [] =
      (.error "Error logging into route-views after 5 attempts", []) :=
  view_from_route_server_exhausts_retries
    ⟨fun _ => ConnResult.authFail, .ok "", fun _ => .ok [], 0, "3257"⟩ [] (fun _ => rfl)

/-- C5: whenever the fetch ends in any error (auth exhaustion, other
transport failure, command failure, parse failure, or a `ValueError` during
normalization), the snapshot log is left exactly as it was: the append only
happens after every fallible step succeeded. -/
theorem view_from_route_server_error_preserves_store (env : FetchEnv)
    (store : List View) (msg : String)
    (h : (view_from_route_server env store).1 = .error msg) :
    (view_from_route_server env store).2 = store := by
  simp only [view_from_route_server] at h ⊢
  cases ho : openLoop env.conn 5 0 [] with
  | propagated a s => simp [ho]
  | exhausted a s => simp [ho]
  | opened a s =>
    simp only [ho] at h ⊢
    cases hr : env.raw with
    | error e => simp [hr]
    | ok raw =>
      simp only [hr] at h ⊢
      cases hp : env.parse (String.mk (stripMarkers raw.data)) with
      | error e => simp [hp]
      | ok parsed =>
        simp only [hp] at h ⊢
        cases hn : normalizeView env.asn parsed with
        | none => simp [hn]
        | some contents => simp [hn] at h

/-- Witness for C5: a non-auth transport failure leaves a one-snapshot
store untouched. -/
theorem view_from_route_server_error_preserves_store_witness :
    (view_from_route_server
        ⟨fun _ => ConnResult.otherFail, .ok "", fun _ => .ok [], 0, "3257"⟩
        [⟨1, []⟩]).1 = .error "transport failure" ∧
    (view_from_route_server
        ⟨fun _ => ConnResult.otherFail, .ok "", fun _ => .ok [], 0, "3257"⟩
        [⟨1, []⟩]).2 = [⟨1, []⟩] :=
  ⟨rfl,
    view_from_route_server_error_preserves_store
      ⟨fun _ => ConnResult.otherFail, .ok "", fun _ => .ok [], 0, "3257"⟩
      [⟨1, []⟩] "transport failure" rfl⟩

/-- Counterexample for C8: with an existing log holding one fresh snapshot
and no force flag, a single invocation of `_get_view` performs two log
reads (one in the initial `_view_from_file`, one in the final return),
refuting "at most one store read"; it performs no fetch and no append, so
the reads are not an artifact of refreshing. -/
theorem get_view_single_read_counterexample :
    (get_view ⟨fun _ => none, false, 28800⟩
        ⟨some [⟨28800, []⟩], 0, 0, 0⟩).state.reads = 2 ∧
    (get_view ⟨fun _ => none, false, 28800⟩
        ⟨some [⟨28800, []⟩], 0, 0, 0⟩).state.fetches = 0 ∧
    (get_view ⟨fun _ => none, false, 28800⟩
        ⟨some [⟨28800, []⟩], 0, 0, 0⟩).state.appends = 0 ∧
    ¬ (2 ≤ 1) := by
  refine ⟨by decide, by decide, by decide, by decide⟩

/-- Counterexample for C9: for a prefix absent from `PREFIX_TRANSLATE` the
verbose line renders the f-string text `(None)`, not "nothing": the output
differs from both no-alias renderings. -/
theorem verbose_view_none_counterexample :
    verbose_view [("9.9.9.0/24", [3257])] =
      "Prefix 9.9.9.0/24 (None) is accessible via next hop AS 3257 (GTT)\n" ∧
    PREFIX_TRANSLATE.lookup "9.9.9.0/24" = none ∧
    verbose_view [("9.9.9.0/24", [3257])] ≠
      "Prefix 9.9.9.0/24 () is accessible via next hop AS 3257 (GTT)\n" ∧
    verbose_view [("9.9.9.0/24", [3257])] ≠
      "Prefix 9.9.9.0/24 is accessible via next hop AS 3257 (GTT)\n" := by
  refine ⟨rfl, rfl, by decide, by decide⟩

/-! ### Lemmas about the normalization step -/

theorem appendAt_map_fst (data : List (String × List Int)) (k : String) (n : Int) :
    (appendAt data k n).map Prod.fst = data.map Prod.fst := by
  induction data with
  | nil => rfl
  | cons p ps ih =>
    simp only [appendAt, List.map_cons] at ih ⊢
    congr 1
    split <;> rfl

theorem mem_appendAt_of_ne {data : List (String × List Int)} {k : String}
    {v : List Int} (h : (k, v) ∈ data) {k' : String} (hne : k ≠ k') (n : Int) :
    (k, v) ∈ appendAt data k' n := by
  have hmap := List.mem_map_of_mem
    (fun p : String × List Int => if p.1 = k' then (p.1, p.2 ++ [n]) else p) h
  simpa [appendAt, hne] using hmap

theorem buildData_map_fst (asn : String) :
    ∀ (rs : List ParsedRecord) (data d : List (String × List Int)),
      buildData asn rs data = some d → d.map Prod.fst = data.map Prod.fst := by
  intro rs
  induction rs with
  | nil =>
    intro data d h
    simp only [buildData, Option.some.injEq] at h
    rw [← h]
  | cons r rs ih =>
    intro data d h
    simp only [buildData] at h
    cases he : extractAS asn r.as_path with
    | err => rw [he] at h; cases h
    | noAdj => rw [he] at h; exact ih data d h
    | adj n => rw [he] at h; rw [ih _ _ h, appendAt_map_fst]

theorem buildData_untouched (asn k : String) (v : List Int) :
    ∀ (rs : List ParsedRecord) (data d : List (String × List Int)),
      buildData asn rs data = some d → (k, v) ∈ data →
      (∀ r ∈ rs, r.network = k → ∀ n, extractAS asn r.as_path ≠ .adj n) →
      (k, v) ∈ d := by
  intro rs
  induction rs with
  | nil =>
    intro data d h hm _
    simp only [buildData, Option.some.injEq] at h
    rw [← h]; exact hm
  | cons r rs ih =>
    intro data d h hm hno
    simp only [buildData] at h
    cases he : extractAS asn r.as_path with
    | err => rw [he] at h; cases h
    | noAdj =>
      rw [he] at h
      exact ih data d h hm (fun r' hr' => hno r' (List.mem_cons_of_mem r hr'))
    | adj n =>
      rw [he] at h
      have hkr : r.network ≠ k := fun hk => hno r (List.mem_cons_self r rs) hk n he
      exact ih _ d h (mem_appendAt_of_ne hm (fun hkk => hkr hkk.symm) n)
        (fun r' hr' => hno r' (List.mem_cons_of_mem r hr'))

theorem map_norm_fst (data : List (String × List Int)) :
    (data.map (fun p => (p.1, pyDedup (List.insertionSort (· ≤ ·) p.2)))).map Prod.fst =
      data.map Prod.fst := by
  simp only [List.map_map]
  rfl

/-- C1: every snapshot produced by the fetch-and-normalize step has, for
each prefix, an ascending duplicate-free AS-number list; every distinct
network of the parsed records appears among the keys; the keys are in
sorted (code-point) order and duplicate-free; and a key none of whose
records yielded an adjacency to the target ASN keeps an empty list. -/
theorem normalizeView_invariants (asn : String) (parsed : List ParsedRecord)
    (view : List (String × List Int)) (h : normalizeView asn parsed = some view) :
    (∀ p l, (p, l) ∈ view → List.Sorted (· ≤ ·) l ∧ l.Nodup) ∧
    List.Sorted strLe (view.map Prod.fst) ∧
    (view.map Prod.fst).Nodup ∧
    (∀ r ∈ parsed, r.network ∈ view.map Prod.fst) ∧
    (∀ p, p ∈ view.map Prod.fst →
      (∀ r ∈ parsed, r.network = p → ∀ n, extractAS asn r.as_path ≠ .adj n) →
      (p, ([] : List Int)) ∈ view) := by
  simp only [normalizeView] at h
  obtain ⟨data, hbd, hview⟩ := Option.map_eq_some'.mp h
  subst hview
  have hfst : (data.map
      (fun p => (p.1, pyDedup (List.insertionSort (· ≤ ·) p.2)))).map Prod.fst =
      pyDedup (List.insertionSort strLe (parsed.map (·.network))) := by
    rw [map_norm_fst, buildData_map_fst asn parsed _ data hbd]
    simp only [blankData, List.map_map]
    exact List.map_id _
  refine ⟨?_, ?_, ?_, ?_, ?_⟩
  · intro p l hm
    obtain ⟨q, _, hgq⟩ := List.mem_map.mp hm
    obtain ⟨-, hl⟩ := Prod.mk.injEq .. ▸ hgq
    rw [← hl]
    exact ⟨sorted_pyDedup (List.sorted_insertionSort _ _), pyDedup_nodup _⟩
  · rw [hfst]
    exact sorted_pyDedup (List.sorted_insertionSort _ _)
  · rw [hfst]
    exact pyDedup_nodup _
  · intro r hr
    rw [hfst, mem_pyDedup, (List.perm_insertionSort strLe _).mem_iff]
    exact List.mem_map_of_mem _ hr
  · intro p hp hno
    rw [hfst] at hp
    have hblank : (p, ([] : List Int)) ∈ blankData
        (pyDedup (List.insertionSort strLe (parsed.map (·.network)))) := by
      simp only [blankData, List.mem_map]
      exact ⟨p, hp, rfl⟩
    have hdata := buildData_untouched asn p [] parsed _ data hbd hblank hno
    have hmem := List.mem_map_of_mem
      (fun p : String × List Int => (p.1, pyDedup (List.insertionSort (· ≤ ·) p.2)))
      hdata
    exact hmem

/-- Witness for C1: two records for the target ASN 100, one with adjacency
`300 100` and one with no adjacency; normalization produces sorted
duplicate-free keys with the adjacency-free network kept with `[]`. -/
theorem normalizeView_invariants_witness :
    normalizeView "100" [⟨"b", "300 100"⟩, ⟨"a", "xyz"⟩] =
      some [("a", []), ("b", [300])] ∧
    List.Sorted strLe ([("a", ([] : List Int)), ("b", [300])].map Prod.fst) ∧
    ([("a", ([] : List Int)), ("b", [300])].map Prod.fst).Nodup := by
  have h : normalizeView "100" [⟨"b", "300 100"⟩, ⟨"a", "xyz"⟩] =
      some [("a", []), ("b", [300])] := by decide
  have H := normalizeView_invariants "100" [⟨"b", "300 100"⟩, ⟨"a", "xyz"⟩]
    [("a", []), ("b", [300])] h
  exact ⟨h, H.2.1, H.2.2.1⟩

/-- C9 amended: every view entry contributes its full verbose line (alias
in parentheses when the prefix is in `PREFIX_TRANSLATE`, the literal text
`None` in parentheses when it is absent — the f-string renders
`dict.get`'s `None`), and within `_get_path` every AS number absent from
`PEER_TRANSLATE` carries the `(UNKNOWN AS)` marker while present ones carry
their alias. -/
theorem verbose_view_alias_rendering (contents : List (String × List Int))
    (e : String × List Int) (he : e ∈ contents) :
    StrContains (verbose_view contents)
      ("Prefix " ++ e.1 ++ " (" ++ pyOptStr (PREFIX_TRANSLATE.lookup e.1) ++
        ") is accessible via next hop AS " ++ get_path e.2 ++ "\n") ∧
    (∀ n ∈ e.2, PEER_TRANSLATE.lookup n = none →
      StrContains (get_path e.2) (toString n ++ " (UNKNOWN AS)") ∧
      StrContains (verbose_view contents) (toString n ++ " (UNKNOWN AS)")) ∧
    (∀ n name, n ∈ e.2 → PEER_TRANSLATE.lookup n = some name →
      StrContains (get_path e.2) (toString n ++ " (" ++ name ++ ")") ∧
      StrContains (verbose_view contents) (toString n ++ " (" ++ name ++ ")")) := by
  have hline : StrContains (verbose_view contents)
      ("Prefix " ++ e.1 ++ " (" ++ pyOptStr (PREFIX_TRANSLATE.lookup e.1) ++
        ") is accessible via next hop AS " ++ get_path e.2 ++ "\n") := by
    unfold verbose_view
    exact strContains_of_join he
  have hpath_in_line : StrContains
      ("Prefix " ++ e.1 ++ " (" ++ pyOptStr (PREFIX_TRANSLATE.lookup e.1) ++
        ") is accessible via next hop AS " ++ get_path e.2 ++ "\n")
      (get_path e.2) :=
    ⟨"Prefix " ++ e.1 ++ " (" ++ pyOptStr (PREFIX_TRANSLATE.lookup e.1) ++
      ") is accessible via next hop AS ", "\n", by simp [String.append_assoc]⟩
  have hpath : StrContains (verbose_view contents) (get_path e.2) :=
    strContains_trans hline hpath_in_line
  refine ⟨hline, ?_, ?_⟩
  · intro n hn hlook
    have hseg : StrContains (get_path e.2) (toString n ++ " (UNKNOWN AS)") := by
      have hjs := @strContains_of_joinSep Int ", "
        (fun n : Int =>
          match PEER_TRANSLATE.lookup n with
          | some name => toString n ++ " (" ++ name ++ ")"
          | none => toString n ++ " (UNKNOWN AS)") n e.2 hn
      simp only [hlook] at hjs
      exact hjs
    exact ⟨hseg, strContains_trans hpath hseg⟩
  · intro n name hn hlook
    have hseg : StrContains (get_path e.2) (toString n ++ " (" ++ name ++ ")") := by
      have hjs := @strContains_of_joinSep Int ", "
        (fun n : Int =>
          match PEER_TRANSLATE.lookup n with
          | some name => toString n ++ " (" ++ name ++ ")"
          | none => toString n ++ " (UNKNOWN AS)") n e.2 hn
      simp only [hlook] at hjs
      exact hjs
    exact ⟨hseg, strContains_trans hpath hseg⟩

/-- Witness for the amended C9: a view entry whose prefix has an alias,
with one aliased and one unknown AS number. -/
theorem verbose_view_alias_rendering_witness :
    StrContains (verbose_view [("1.2.3.0/24", [3257, 42])])
      ("Prefix " ++ "1.2.3.0/24" ++ " (" ++
        pyOptStr (PREFIX_TRANSLATE.lookup "1.2.3.0/24") ++
        ") is accessible via next hop AS " ++ get_path [3257, 42] ++ "\n") ∧
    StrContains (get_path [3257, 42]) (toString (42 : Int) ++ " (UNKNOWN AS)") ∧
    StrContains (get_path [3257, 42]) (toString (3257 : Int) ++ " (" ++ "GTT" ++ ")") := by
  have H := verbose_view_alias_rendering [("1.2.3.0/24", [3257, 42])]
    ("1.2.3.0/24", [3257, 42]) (by decide)
  exact ⟨H.1, (H.2.1 42 (by decide) (by decide)).1,
    (H.2.2 3257 "GTT" (by decide) (by decide)).1⟩


/-! ### Lemmas about the invocation-counting model -/

theorem Res.state_ok (a : α) (s : RunState) : (Res.ok a s).state = s := rfl

theorem Res.state_fail (s : RunState) : (Res.fail s : Res α).state = s := rfl

theorem vff_eq_none_fail (env : RunEnv) (fe re ap : Nat)
    (hf : env.fetchRes fe = none) :
    view_from_file env ⟨none, fe, re, ap⟩ = .fail ⟨none, fe + 1, re, ap⟩ := by
  simp [view_from_file, doFetch, hf]

theorem vff_eq_none_ok (env : RunEnv) (fe re ap : Nat) (v : View)
    (hf : env.fetchRes fe = some v) :
    view_from_file env ⟨none, fe, re, ap⟩ =
      .ok (some v) ⟨some [v], fe + 1, re + 1, ap + 1⟩ := by
  simp [view_from_file, doFetch, hf, read_file]

theorem vff_eq_some (env : RunEnv) (lines : List View) (fe re ap : Nat) (v : View)
    (hlast : lines.getLast? = some v) :
    view_from_file env ⟨some lines, fe, re, ap⟩ =
      .ok (some v) ⟨some lines, fe, re + 1, ap⟩ := by
  simp [view_from_file, read_file, hlast]

theorem vff_eq_empty_fail (env : RunEnv) (lines : List View) (fe re ap : Nat)
    (hlast : lines.getLast? = none) (hf : env.fetchRes fe = none) :
    view_from_file env ⟨some lines, fe, re, ap⟩ =
      .fail ⟨some lines, fe + 1, re + 1, ap⟩ := by
  simp [view_from_file, read_file, hlast, doFetch, hf]

theorem vff_eq_empty_ok (env : RunEnv) (lines : List View) (fe re ap : Nat) (v : View)
    (hlast : lines.getLast? = none) (hf : env.fetchRes fe = some v) :
    view_from_file env ⟨some lines, fe, re, ap⟩ =
      .ok ((lines ++ [v]).getLast?) ⟨some (lines ++ [v]), fe + 1, re + 2, ap + 1⟩ := by
  simp [view_from_file, read_file, hlast, doFetch, hf]

theorem doFetch_cases (env : RunEnv) (s : RunState) :
    (env.fetchRes s.fetches = none ∧
      doFetch env s = .fail { s with fetches := s.fetches + 1 }) ∨
    (∃ v, env.fetchRes s.fetches = some v ∧
      doFetch env s = .ok () { s with
        fetches := s.fetches + 1
        appends := s.appends + 1
        file := some ((s.file.getD []) ++ [v]) }) := by
  cases h : env.fetchRes s.fetches with
  | none => exact Or.inl ⟨rfl, by simp [doFetch, h]⟩
  | some v => exact Or.inr ⟨v, rfl, by simp [doFetch, h]⟩

theorem view_from_file_spec (env : RunEnv) (s : RunState) :
    ((view_from_file env s).state.fetches ≤ s.fetches + 1 ∧
      (view_from_file env s).state.reads ≤ s.reads + 2 ∧
      (view_from_file env s).state.appends ≤ s.appends + 1) ∧
    (∀ a s', view_from_file env s = .ok a s' → ∃ l, s'.file = some l ∧ l ≠ []) := by
  obtain ⟨file, fe, re, ap⟩ := s
  cases file with
  | none =>
    cases hf : env.fetchRes fe with
    | none =>
      rw [vff_eq_none_fail env fe re ap hf]
      exact ⟨⟨by dsimp only [Res.state]; omega, by dsimp only [Res.state]; omega, by dsimp only [Res.state]; omega⟩, fun a s' h => Res.noConfusion h⟩
    | some v =>
      rw [vff_eq_none_ok env fe re ap v hf]
      refine ⟨⟨by dsimp only [Res.state]; omega, by dsimp only [Res.state]; omega, by dsimp only [Res.state]; omega⟩, ?_⟩
      intro a s' h
      injection h with h1 h2
      subst h2
      exact ⟨[v], rfl, by simp⟩
  | some lines =>
    cases hlast : lines.getLast? with
    | some v =>
      rw [vff_eq_some env lines fe re ap v hlast]
      refine ⟨⟨by dsimp only [Res.state]; omega, by dsimp only [Res.state]; omega, by dsimp only [Res.state]; omega⟩, ?_⟩
      intro a s' h
      injection h with h1 h2
      subst h2
      refine ⟨lines, rfl, ?_⟩
      rintro rfl
      simp at hlast
    | none =>
      cases hf : env.fetchRes fe with
      | none =>
        rw [vff_eq_empty_fail env lines fe re ap hlast hf]
        exact ⟨⟨by dsimp only [Res.state]; omega, by dsimp only [Res.state]; omega, by dsimp only [Res.state]; omega⟩, fun a s' h => Res.noConfusion h⟩
      | some v =>
        rw [vff_eq_empty_ok env lines fe re ap v hlast hf]
        refine ⟨⟨by dsimp only [Res.state]; omega, by dsimp only [Res.state]; omega, by dsimp only [Res.state]; omega⟩, ?_⟩
        intro a s' h
        injection h with h1 h2
        subst h2
        exact ⟨lines ++ [v], rfl, by simp⟩

theorem view_from_file_nonempty (env : RunEnv) (s : RunState) (l : List View)
    (hf : s.file = some l) (hne : l ≠ []) :
    view_from_file env s = .ok l.getLast? { s with reads := s.reads + 1 } := by
  obtain ⟨file, fe, re, ap⟩ := s
  cases file with
  | none => exact Option.noConfusion hf
  | some lines =>
    have hl : lines = l := by injection hf
    subst hl
    obtain ⟨v, hv⟩ := Option.isSome_iff_exists.mp (List.getLast?_isSome.mpr hne)
    rw [vff_eq_some env lines fe re ap v hv, hv]

theorem get_view_eq_of_fail (env : RunEnv) (s : RunState) (s1 : RunState)
    (hv : view_from_file env s = .fail s1) : get_view env s = .fail s1 := by
  simp [get_view, hv]

theorem get_view_eq_of_fresh (env : RunEnv) (s : RunState) (latest : Option View)
    (s1 : RunState) (hv : view_from_file env s = .ok latest s1)
    (hn : needsRefresh latest env.refresh env.now = false) :
    get_view env s = view_from_file env s1 := by
  simp [get_view, hv, hn]

theorem get_view_eq_of_stale_fail (env : RunEnv) (s : RunState) (latest : Option View)
    (s1 s2 : RunState) (hv : view_from_file env s = .ok latest s1)
    (hn : needsRefresh latest env.refresh env.now = true)
    (hd : doFetch env s1 = .fail s2) :
    get_view env s = .fail s2 := by
  simp [get_view, hv, hn, hd]

theorem get_view_eq_of_stale_ok (env : RunEnv) (s : RunState) (latest : Option View)
    (s1 s2 : RunState) (hv : view_from_file env s = .ok latest s1)
    (hn : needsRefresh latest env.refresh env.now = true)
    (hd : doFetch env s1 = .ok () s2) :
    get_view env s = view_from_file env s2 := by
  simp [get_view, hv, hn, hd]

/-- C8 amended: the claim's "at most one fetch, one store read, one append"
fails on the code (see the counterexample theorem: the latest view is read
once by the initial `_view_from_file` and once more by the final return),
but one `_get_view` invocation performs at most two route-server fetches,
at most three log reads and at most two log appends. -/
theorem get_view_operation_bounds (env : RunEnv) (s : RunState) :
    (get_view env s).state.fetches ≤ s.fetches + 2 ∧
    (get_view env s).state.reads ≤ s.reads + 3 ∧
    (get_view env s).state.appends ≤ s.appends + 2 := by
  have hspec := view_from_file_spec env s
  cases hv : view_from_file env s with
  | fail s1 =>
    rw [hv] at hspec
    obtain ⟨⟨h1, h2, h3⟩, -⟩ := hspec
    simp only [Res.state_fail] at h1 h2 h3
    rw [get_view_eq_of_fail env s s1 hv]
    simp only [Res.state_fail]
    exact ⟨by omega, by omega, by omega⟩
  | ok latest s1 =>
    rw [hv] at hspec
    obtain ⟨⟨h1, h2, h3⟩, hok⟩ := hspec
    simp only [Res.state_ok] at h1 h2 h3
    obtain ⟨l, hl, hlne⟩ := hok latest s1 rfl
    cases hn : needsRefresh latest env.refresh env.now with
    | false =>
      rw [get_view_eq_of_fresh env s latest s1 hv hn,
        view_from_file_nonempty env s1 l hl hlne]
      simp only [Res.state_ok]
      exact ⟨by omega, by omega, by omega⟩
    | true =>
      rcases doFetch_cases env s1 with ⟨hfr, hd⟩ | ⟨v, hfr, hd⟩
      · rw [get_view_eq_of_stale_fail env s latest s1 _ hv hn hd]
        simp only [Res.state_fail]
        exact ⟨by omega, by omega, by omega⟩
      · rw [get_view_eq_of_stale_ok env s latest s1 _ hv hn hd]
        have hfile2 : ({ s1 with
            fetches := s1.fetches + 1
            appends := s1.appends + 1
            file := some ((s1.file.getD []) ++ [v]) }).file = some (l ++ [v]) := by
          simp [hl]
        rw [view_from_file_nonempty env _ (l ++ [v]) hfile2 (by simp)]
        simp only [Res.state_ok]
        exact ⟨by omega, by omega, by omega⟩
